import Mathlib

/-!
Verification of the size-constrained build pipeline in src/build.mjs of the
demo-traveler repository.

The pipeline's core pieces are embedded shallowly:

* compressSource (src/build.mjs:88-98): the candidate selector.  The external
  RegPack collaborator is out of scope; the lazy generator it feeds into the
  selector's loop is modelled as the finite list of candidate strings it
  yields, in yield order.  The loop's two mutable variables text and buf are
  always assigned together and text equals null exactly when buf does, so the
  loop state is one value of type Option (String x List Nat).
* Buffer.from(s, utf8).length: the UTF-8 byte serialization, modelled by
  utf8EncodeChar / utf8Bytes / byteLen below.
* escapeTextHTML (src/build.mjs:39-52): String.replace over the regular
  expression /&<>/g with a callback that can throw; the callback's throw is
  an Except.error.  Note the regex matches the literal three-character
  substring, not a character class.
* evalTemplate (src/build.mjs:55-65): String.replace over /\x7b\x7b(\w+)\x7d\x7d/g
  with a callback that throws on a missing or null variable.
* makeBar (src/build.mjs:100-135): the budget bar renderer.  The fraction is
  modelled as a rational; Math.round is floor of x + 1/2; process.stderr.columns
  is a parameter of type Option Nat (undefined when the stream has no width).
-/

namespace DemoTraveler

/-- UTF-8 encoding of a single unicode scalar value, as a list of byte values.
Models what Buffer.from(s, utf8) produces for each character. -/
def utf8EncodeChar (c : Char) : List Nat :=
  let n := c.toNat
  if n < 128 then [n]
  else if n < 2048 then [192 + n / 64, 128 + n % 64]
  else if n < 65536 then [224 + n / 4096, 128 + (n / 64) % 64, 128 + n % 64]
  else [240 + n / 262144, 128 + (n / 4096) % 64, 128 + (n / 64) % 64, 128 + n % 64]

/-- UTF-8 serialization of a string: concatenation of the per-character
encodings.  Models Buffer.from(output, utf8) in compressSource. -/
def utf8Bytes (s : String) : List Nat :=
  s.data.foldr (fun c acc => utf8EncodeChar c ++ acc) []

/-- The UTF-8 byte length of a string, i.e. Buffer.from(s, utf8).length. -/
def byteLen (s : String) : Nat :=
  (utf8Bytes s).length

/-- One iteration of the loop body of compressSource (src/build.mjs:90-96):
given the current (text, buf) state and the next yielded candidate, keep the
candidate exactly when no candidate has been seen yet or its byte buffer is
strictly shorter than the current best buffer. -/
def compressStep (acc : Option (String × List Nat)) (output : String) :
    Option (String × List Nat) :=
  let obuf := utf8Bytes output
  match acc with
  | none => some (output, obuf)
  | some (_, buf) => if obuf.length < buf.length then some (output, obuf) else acc

/-- compressSource (src/build.mjs:88-98), with the candidate generator
modelled as the list of candidate strings it yields.  Returns the final
(text, buf) pair; none models the case where both variables are still
undefined because the loop body never ran. -/
def compressSource (candidates : List String) : Option (String × List Nat) :=
  candidates.foldl compressStep none

/-- Models the JS member access buf.length performed by build
(src/build.mjs:157-158) on the buffer returned by compressSource: reading
.length from undefined raises a TypeError. -/
def jsLengthAccess (buf : Option (List Nat)) : Except String Nat :=
  match buf with
  | none => Except.error ("TypeError: Cannot read properties of undefined")
  | some b => Except.ok b.length

/-- The byte size build (src/build.mjs:152-164) hands to printStats: it
destructures compressSource's result and reads buf.length. -/
def buildSize (candidates : List String) : Except String Nat :=
  jsLengthAccess (Option.map Prod.snd (compressSource candidates))

/-- The replacement callback of escapeTextHTML (src/build.mjs:40-51): a
switch on the matched text with one case per recognized character and a
default branch that throws. -/
def escCallback (t : List Char) : Except String (List Char) :=
  if t = [Char.ofNat 38] then Except.ok (String.data ("&amp;"))
  else if t = [Char.ofNat 60] then Except.ok (String.data ("&lt;"))
  else if t = [Char.ofNat 62] then Except.ok (String.data ("&gt;"))
  else Except.error ("Unexpected text " ++ String.mk t)

/-- JS String.replace with a /g literal-substring pattern and a callback that
may throw: scan left to right; at each position, if the pattern starts here,
hand it to the callback and resume after the match, otherwise keep the
character.  An Except.error models a throw escaping the whole replace call. -/
def scanReplace (pat : List Char) (cb : List Char → Except String (List Char)) :
    List Char → Except String (List Char)
  | [] => Except.ok []
  | c :: rest =>
    if pat.isPrefixOf (c :: rest) then
      match cb pat with
      | Except.error e => Except.error e
      | Except.ok r =>
        match scanReplace pat cb (List.drop (pat.length - 1) rest) with
        | Except.error e => Except.error e
        | Except.ok tail => Except.ok (r ++ tail)
    else
      match scanReplace pat cb rest with
      | Except.error e => Except.error e
      | Except.ok tail => Except.ok (c :: tail)
termination_by s => s.length
decreasing_by
  · simp only [List.length_cons]
    have h := List.length_drop (pat.length - 1) rest
    omega
  · simp only [List.length_cons]
    omega

/-- escapeTextHTML (src/build.mjs:39-52): text.replace with the regular
expression /&<>/g, which matches the literal three-character substring
ampersand less-than greater-than, and the switch callback above. -/
def escapeTextHTML (text : String) : Except String String :=
  match scanReplace (String.data ("&<>")) escCallback text.data with
  | Except.error e => Except.error e
  | Except.ok l => Except.ok (String.mk l)

/-- The character class of the regex word escape, [A-Za-z0-9_], used by the
placeholder pattern of evalTemplate. -/
def isWordChar (c : Char) : Bool :=
  (97 ≤ c.toNat && c.toNat ≤ 122) || (65 ≤ c.toNat && c.toNat ≤ 90) ||
    (48 ≤ c.toNat && c.toNat ≤ 57) || c.toNat == 95

/-- Whether the placeholder regex of evalTemplate matches at the start of s:
two opening braces, a maximal nonempty run of word characters, two closing
braces.  Returns the identifier and the remainder after the match.  (The
greedy word run cannot backtrack successfully, because shortening it leaves a
word character where a closing brace is required.) -/
def matchPlaceholder (s : List Char) : Option (List Char × List Char) :=
  if s.take 2 = [Char.ofNat 123, Char.ofNat 123] then
    let name := (s.drop 2).takeWhile isWordChar
    if name = [] then none
    else if (s.drop (2 + name.length)).take 2 = [Char.ofNat 125, Char.ofNat 125] then
      some (name, s.drop (4 + name.length))
    else none
  else none

/-- Map lookup in the variable set of evalTemplate (src/build.mjs:57).  A
value of none models a JS value that is null or undefined, so the outer
Option is collapsed: variables.get(name) == null holds exactly when the key
is absent or its stored value is null or undefined. -/
def getVal (vars : List (String × Option String)) (name : String) : Option String :=
  match vars.find? (fun p => p.1 == name) with
  | none => none
  | some p => p.2

/-- The error message thrown by evalTemplate for a missing variable
(src/build.mjs:59-61); JSON.stringify of a word-character identifier is the
identifier wrapped in double quotes. -/
def errUndefVar (name : String) : String :=
  "Template has undefined variable: \"" ++ name ++ "\""

/-- The scan-and-substitute loop of evalTemplate (src/build.mjs:56-64):
template.replace over the global placeholder regex with a callback that
throws when the variable's value is null or undefined.  At each position the
regex either matches (substitute and resume after the match) or the scan
advances one character. -/
def evalTemplateCore (vars : List (String × Option String)) (s : List Char) :
    Except String (List Char) :=
  match h : matchPlaceholder s with
    | some (name, after) =>
      match getVal vars (String.mk name) with
      | none => Except.error (errUndefVar (String.mk name))
      | some v =>
        match evalTemplateCore vars after with
        | Except.error e => Except.error e
        | Except.ok tail => Except.ok (v.data ++ tail)
    | none =>
      match s with
      | [] => Except.ok []
      | c :: rest =>
        match evalTemplateCore vars rest with
        | Except.error e => Except.error e
        | Except.ok tail => Except.ok (c :: tail)
termination_by s.length
decreasing_by
  · simp only [matchPlaceholder] at h
    split_ifs at h with h1 h2 h3
    have h4 : 2 ≤ s.length := by
      have h5 := congrArg List.length h1
      simp [List.length_take] at h5
      omega
    have h6 : after = s.drop (4 + ((s.drop 2).takeWhile isWordChar).length) :=
      (Prod.mk.injEq _ _ _ _ ▸ Option.some.inj h).2.symm
    have h7 := List.length_drop (4 + ((s.drop 2).takeWhile isWordChar).length) s
    have h8 := congrArg List.length h6
    omega
  · simp only [List.length_cons]
    omega

/-- The identifiers of the placeholders that the regex scan of evalTemplate
finds in a template, in scan order. -/
def placeholdersCore (s : List Char) : List String :=
  match h : matchPlaceholder s with
    | some (name, after) => String.mk name :: placeholdersCore after
    | none =>
      match s with
      | [] => []
      | _ :: rest => placeholdersCore rest
termination_by s.length
decreasing_by
  · simp only [matchPlaceholder] at h
    split_ifs at h with h1 h2 h3
    have h4 : 2 ≤ s.length := by
      have h5 := congrArg List.length h1
      simp [List.length_take] at h5
      omega
    have h6 : after = s.drop (4 + ((s.drop 2).takeWhile isWordChar).length) :=
      (Prod.mk.injEq _ _ _ _ ▸ Option.some.inj h).2.symm
    have h7 := List.length_drop (4 + ((s.drop 2).takeWhile isWordChar).length) s
    have h8 := congrArg List.length h6
    omega
  · simp only [List.length_cons]
    omega

/-- evalTemplate (src/build.mjs:55-65) at the String level. -/
def evalTemplate (template : String) (vars : List (String × Option String)) :
    Except String String :=
  match evalTemplateCore vars template.data with
  | Except.error e => Except.error e
  | Except.ok l => Except.ok (String.mk l)

/-- The placeholder identifiers of a template, in scan order. -/
def placeholders (template : String) : List String :=
  placeholdersCore template.data

/-- JS x || 80 for the stderr column count (src/build.mjs:101): undefined and
0 are falsy and fall back to 80. -/
def jsOr80 (stderrColumns : Option Nat) : Nat :=
  match stderrColumns with
  | none => 80
  | some 0 => 80
  | some n => n

/-- The cell count of the bar interior, Math.max(10, columns or 80) - 2
(src/build.mjs:101). -/
def columnsOf (stderrColumns : Option Nat) : Nat :=
  max 10 (jsOr80 stderrColumns) - 2

/-- JS Math.round on a rational: floor of x + 1/2 (halves round toward
positive infinity). -/
def jsRound (q : ℚ) : ℤ :=
  ⌊q + 1 / 2⌋

/-- The filled sub-unit count of makeBar (src/build.mjs:102-105):
Math.min(columns * 8, Math.max(0, Math.round(frac * columns * 8))).  The
result is in 0 .. columns * 8, so the JS int32 operations bwidth >> 3 and
bwidth & 7 coincide with division and remainder by 8 on this Nat. -/
def bwidthNat (frac : ℚ) (columns : Nat) : Nat :=
  (min ((columns : ℤ) * 8) (max 0 (jsRound (frac * (columns : ℚ) * 8)))).toNat

/-- barBlocks (src/build.mjs:100-102): the seven partial-fill glyphs, index i
holding the code point 0x2589 + 6 - i, i.e. from the one-eighth block
(U+258F) at index 0 up to the seven-eighths block (U+2589) at index 6. -/
def barBlocks : List String :=
  (List.range 7).map (fun i => String.mk [Char.ofNat (0x2589 + 6 - i)])

/-- JS string concatenation t += v where v may be undefined: undefined is
coerced to the text undefined. -/
def jsStrOpt (v : Option String) : String :=
  match v with
  | none => "undefined"
  | some s => s

/-- A run of n copies of one character. -/
def repChar (n : Nat) (c : Char) : String :=
  String.mk (List.replicate n c)

/-- makeBar (src/build.mjs:104-135): renders the three-row box around the
proportional bar.  The middle row holds bwidth / 8 full blocks (U+2588),
then, when bwidth % 8 is nonzero, whatever barBlocks[bwidth % 8] appends
(a glyph for indices 1..6, the text undefined for index 7, which is out of
bounds), then blanks up to the cell count. -/
def makeBar (frac : ℚ) (stderrColumns : Option Nat) : String :=
  let columns := columnsOf stderrColumns
  let bwidth := bwidthNat frac columns
  let fullBlocks := bwidth / 8
  let fracBlock := bwidth % 8
  let fracPart := if fracBlock ≠ 0 then jsStrOpt (barBlocks.get? fracBlock) else ""
  let used := fullBlocks + (if fracBlock ≠ 0 then 1 else 0)
  String.mk [Char.ofNat 0x250C] ++ repChar columns (Char.ofNat 0x2500) ++
    String.mk [Char.ofNat 0x2510, Char.ofNat 10, Char.ofNat 0x2502] ++
    repChar fullBlocks (Char.ofNat 0x2588) ++ fracPart ++
    repChar (columns - used) (Char.ofNat 32) ++
    String.mk [Char.ofNat 0x2502, Char.ofNat 10, Char.ofNat 0x2514] ++
    repChar columns (Char.ofNat 0x2500) ++
    String.mk [Char.ofNat 0x2518, Char.ofNat 10]

/-! Helper lemmas about the candidate selector fold. -/

theorem getD_mem_of_lt : ∀ (l : List String) (j : Nat), j < l.length →
    l.getD j ("") ∈ l
  | c :: rest, 0, _ => List.mem_cons_self c rest
  | c :: rest, j + 1, h =>
    List.mem_cons_of_mem c (getD_mem_of_lt rest j (by simpa using h))

/-- Invariant of the selection loop started from a best candidate t0: the
fold returns a pair whose buffer is the encoding of its text, whose byte
length is minimal among t0 and all remaining candidates, and whose text is
either t0 itself or the first later candidate strictly below everything
before it. -/
theorem compressFold_spec (l : List String) (t0 : String) :
    ∃ t b, List.foldl compressStep (some (t0, utf8Bytes t0)) l = some (t, b) ∧
      b = utf8Bytes t ∧ byteLen t ≤ byteLen t0 ∧
      (∀ c ∈ l, byteLen t ≤ byteLen c) ∧
      (t = t0 ∨ ∃ i, i < l.length ∧ l.getD i ("") = t ∧ byteLen t < byteLen t0 ∧
        ∀ j, j < i → byteLen t < byteLen (l.getD j (""))) := by
  induction l generalizing t0 with
  | nil =>
    exact ⟨t0, utf8Bytes t0, rfl, rfl, le_refl _, by simp, Or.inl rfl⟩
  | cons c rest ih =>
    simp only [List.foldl_cons]
    by_cases hc : byteLen c < byteLen t0
    · have hstep : compressStep (some (t0, utf8Bytes t0)) c = some (c, utf8Bytes c) := by
        simp only [compressStep]
        exact if_pos hc
      rw [hstep]
      obtain ⟨t, b, hfold, hbuf, hle, hall, hpos⟩ := ih c
      refine ⟨t, b, hfold, hbuf, le_trans hle (le_of_lt hc), ?_, ?_⟩
      · intro x hx
        rcases List.mem_cons.mp hx with rfl | hx
        · exact hle
        · exact hall x hx
      · right
        rcases hpos with rfl | ⟨i, hi, hget, hlt, hfirst⟩
        · exact ⟨0, by simp, rfl, hc, fun j hj => absurd hj (Nat.not_lt_zero j)⟩
        · refine ⟨i + 1, by simpa using hi, by simpa using hget,
            lt_trans hlt hc, ?_⟩
          intro j hj
          cases j with
          | zero => simpa using hlt
          | succ j' => simpa using hfirst j' (by omega)
    · have hstep : compressStep (some (t0, utf8Bytes t0)) c = some (t0, utf8Bytes t0) := by
        simp only [compressStep]
        exact if_neg hc
      rw [hstep]
      obtain ⟨t, b, hfold, hbuf, hle, hall, hpos⟩ := ih t0
      refine ⟨t, b, hfold, hbuf, hle, ?_, ?_⟩
      · intro x hx
        rcases List.mem_cons.mp hx with rfl | hx
        · exact le_trans hle (Nat.le_of_not_lt hc)
        · exact hall x hx
      · rcases hpos with rfl | ⟨i, hi, hget, hlt, hfirst⟩
        · exact Or.inl rfl
        · refine Or.inr ⟨i + 1, by simpa using hi, by simpa using hget, hlt, ?_⟩
          intro j hj
          cases j with
          | zero => simpa using lt_of_lt_of_le hlt (Nat.le_of_not_lt hc)
          | succ j' => simpa using hfirst j' (by omega)

/-! Claim theorems. -/

/-- Claim C1.  Selection minimality: for every finite non-empty sequence of
candidate strings consumed by compressSource, the UTF-8 byte length of the
returned winning candidate is at most the UTF-8 byte length of every
candidate in the sequence. -/
theorem selection_minimality (l : List String) (hl : l ≠ []) :
    ∃ t b, compressSource l = some (t, b) ∧ ∀ c ∈ l, byteLen t ≤ byteLen c := by
  match l, hl with
  | c0 :: rest, _ =>
    obtain ⟨t, b, hfold, _, hle, hall, _⟩ := compressFold_spec rest c0
    refine ⟨t, b, hfold, ?_⟩
    intro c hc
    rcases List.mem_cons.mp hc with rfl | hc
    · exact hle
    · exact hall c hc

theorem selection_minimality_witness :
    (["aa", "b"] : List String) ≠ [] ∧
      (∃ t b, compressSource ["aa", "b"] = some (t, b) ∧
        ∀ c ∈ (["aa", "b"] : List String), byteLen t ≤ byteLen c) :=
  ⟨by decide, selection_minimality (["aa", "b"]) (by decide)⟩

/-- Claim C2.  Tie-break determinism: compressSource keeps the current best
unless a later candidate is strictly smaller, so the winner is the first
candidate attaining the minimal byte length: every earlier candidate is
strictly larger and no candidate is smaller. -/
theorem tie_break_first_min (l : List String) (hl : l ≠ []) :
    ∃ t b i, compressSource l = some (t, b) ∧ i < l.length ∧ l.getD i ("") = t ∧
      (∀ j, j < i → byteLen t < byteLen (l.getD j (""))) ∧
      (∀ j, j < l.length → byteLen t ≤ byteLen (l.getD j (""))) := by
  match l, hl with
  | c0 :: rest, _ =>
    obtain ⟨t, b, hfold, _, hle, hall, hpos⟩ := compressFold_spec rest c0
    have hmin : ∀ j, j < (c0 :: rest).length → byteLen t ≤ byteLen ((c0 :: rest).getD j ("")) := by
      intro j hj
      cases j with
      | zero => simpa using hle
      | succ j' =>
        have hj' : j' < rest.length := by simpa using hj
        exact hall _ (getD_mem_of_lt rest j' hj')
    rcases hpos with rfl | ⟨i, hi, hget, hlt, hfirst⟩
    · exact ⟨t, b, 0, hfold, by simp, rfl,
        fun j hj => absurd hj (Nat.not_lt_zero j), hmin⟩
    · refine ⟨t, b, i + 1, hfold, by simpa using hi, by simpa using hget, ?_, hmin⟩
      intro j hj
      cases j with
      | zero => simpa using hlt
      | succ j' => simpa using hfirst j' (by omega)

theorem tie_break_first_min_witness :
    (["abc", "xyz"] : List String) ≠ [] ∧
      (∃ t b i, compressSource ["abc", "xyz"] = some (t, b) ∧
        i < (["abc", "xyz"] : List String).length ∧
        (["abc", "xyz"] : List String).getD i ("") = t ∧
        (∀ j, j < i → byteLen t < byteLen ((["abc", "xyz"] : List String).getD j (""))) ∧
        (∀ j, j < (["abc", "xyz"] : List String).length →
          byteLen t ≤ byteLen ((["abc", "xyz"] : List String).getD j ("")))) ∧
      compressSource ["abc", "xyz"] = some (("abc"), [97, 98, 99]) :=
  ⟨by decide, tie_break_first_min (["abc", "xyz"]) (by decide), by decide⟩

/-- Claim C3, as stated, is false: on an empty candidate sequence
compressSource does not throw; its loop body never runs, so it returns
normally with text and buf still undefined. -/
theorem compressSource_empty_returns : compressSource ([] : List String) = none :=
  rfl

/-- Claim C3, amended: on zero candidates compressSource itself returns
normally with text and buf undefined, falling back to no string at all (in
particular not to the source text); the pipeline then fails downstream when
build reads buf.length from the undefined buffer, which raises a TypeError. -/
theorem compressSource_empty_no_fallback :
    compressSource ([] : List String) = none ∧
      buildSize [] = Except.error ("TypeError: Cannot read properties of undefined") :=
  ⟨rfl, rfl⟩

/-- Claim C4.  Encoding sensitivity: candidates are compared by UTF-8 byte
length alone; two candidates of equal byte length are resolved by the
first-seen tie-break regardless of their character counts. -/
theorem encoding_sensitivity (s1 s2 : String) (h : byteLen s1 = byteLen s2) :
    compressSource [s1, s2] = some (s1, utf8Bytes s1) := by
  have h2 : ¬ (utf8Bytes s2).length < (utf8Bytes s1).length := by
    have h1 : byteLen s1 = byteLen s2 := h
    simp only [byteLen] at h1
    omega
  show compressStep (compressStep none s1) s2 = some (s1, utf8Bytes s1)
  have hstep : compressStep none s1 = some (s1, utf8Bytes s1) := rfl
  rw [hstep]
  simp only [compressStep]
  exact if_neg h2

theorem encoding_sensitivity_witness :
    byteLen ("€") = byteLen ("abc") ∧ String.length ("€") = 1 ∧
      String.length ("abc") = 3 ∧
      compressSource [("€"), ("abc")] = some (("€"), utf8Bytes ("€")) :=
  ⟨by decide, by decide, by decide, encoding_sensitivity ("€") ("abc") (by decide)⟩

/-- Claim C10.  Winner text and buffer are consistent: whenever at least one
candidate is yielded, compressSource returns a pair whose buffer is exactly
the UTF-8 encoding of its winning text. -/
theorem winner_buffer_consistent (l : List String) (hl : l ≠ []) :
    ∃ t, compressSource l = some (t, utf8Bytes t) := by
  match l, hl with
  | c0 :: rest, _ =>
    obtain ⟨t, b, hfold, hbuf, _, _, _⟩ := compressFold_spec rest c0
    exact ⟨t, by rw [← hbuf]; exact hfold⟩

theorem winner_buffer_consistent_witness :
    (["a"] : List String) ≠ [] ∧
      (∃ t, compressSource ["a"] = some (t, utf8Bytes t)) :=
  ⟨by decide, winner_buffer_consistent (["a"]) (by decide)⟩

/-- Claim C5 fails on the code: the regex of escapeTextHTML matches only the
literal three-character substring ampersand less-than greater-than, so the
spec's example string, which merely contains the three characters separately,
is returned unchanged; a string that does contain the literal substring makes
the switch callback reach its default branch and throw. -/
theorem escapeTextHTML_does_not_escape :
    escapeTextHTML ("a<b>c&d") = Except.ok ("a<b>c&d") ∧
      escapeTextHTML ("x&<>y") = Except.error ("Unexpected text &<>") := by
  constructor
  · simp [escapeTextHTML, scanReplace, escCallback, String.data]
  · simp [escapeTextHTML, scanReplace, escCallback, String.data]

/-! Helper lemmas about the template scanner. -/

theorem matchPlaceholder_length_lt {s name after : List Char}
    (h : matchPlaceholder s = some (name, after)) : after.length < s.length := by
  simp only [matchPlaceholder] at h
  split_ifs at h with h1 h2 h3
  have h4 : 2 ≤ s.length := by
    have h5 := congrArg List.length h1
    simp [List.length_take] at h5
    omega
  have h6 : after = s.drop (4 + ((s.drop 2).takeWhile isWordChar).length) :=
    (Prod.mk.injEq _ _ _ _ ▸ Option.some.inj h).2.symm
  have h7 := List.length_drop (4 + ((s.drop 2).takeWhile isWordChar).length) s
  have h8 := congrArg List.length h6
  omega

theorem evalTemplateCore_ph (vars : List (String × Option String))
    {s name after : List Char} (h : matchPlaceholder s = some (name, after)) :
    evalTemplateCore vars s =
      match getVal vars (String.mk name) with
      | none => Except.error (errUndefVar (String.mk name))
      | some v =>
        match evalTemplateCore vars after with
        | Except.error e => Except.error e
        | Except.ok tail => Except.ok (v.data ++ tail) := by
  rw [evalTemplateCore]
  split
  · next name2 after2 heq =>
    rw [h] at heq
    injection heq with h1
    injection h1 with h2 h3
    subst h2
    subst h3
    rfl
  · next heq =>
    rw [h] at heq
    exact absurd heq (by simp)

theorem evalTemplateCore_nil (vars : List (String × Option String)) :
    evalTemplateCore vars [] = Except.ok [] := by
  rw [evalTemplateCore]
  rfl

theorem evalTemplateCore_cons (vars : List (String × Option String))
    {c : Char} {rest : List Char} (h : matchPlaceholder (c :: rest) = none) :
    evalTemplateCore vars (c :: rest) =
      match evalTemplateCore vars rest with
      | Except.error e => Except.error e
      | Except.ok tail => Except.ok (c :: tail) := by
  rw [evalTemplateCore]
  split
  · next name2 after2 heq =>
    rw [h] at heq
    exact absurd heq (by simp)
  · rfl

theorem placeholdersCore_ph {s name after : List Char}
    (h : matchPlaceholder s = some (name, after)) :
    placeholdersCore s = String.mk name :: placeholdersCore after := by
  rw [placeholdersCore]
  split
  · next name2 after2 heq =>
    rw [h] at heq
    injection heq with h1
    injection h1 with h2 h3
    subst h2
    subst h3
    rfl
  · next heq =>
    rw [h] at heq
    exact absurd heq (by simp)

theorem placeholdersCore_nil : placeholdersCore [] = [] := by
  rw [placeholdersCore]
  rfl

theorem placeholdersCore_cons {c : Char} {rest : List Char}
    (h : matchPlaceholder (c :: rest) = none) :
    placeholdersCore (c :: rest) = placeholdersCore rest := by
  rw [placeholdersCore]
  split
  · next name2 after2 heq =>
    rw [h] at heq
    exact absurd heq (by simp)
  · rfl

theorem missing_var_core (vars : List (String × Option String)) :
    ∀ (n : Nat) (s : List Char), s.length ≤ n →
      ∀ name, name ∈ placeholdersCore s → getVal vars name = none →
      ∃ m, getVal vars m = none ∧
        evalTemplateCore vars s = Except.error (errUndefVar m) := by
  intro n
  induction n with
  | zero =>
    intro s hs name hmem _
    have hnil : s = [] := List.eq_nil_of_length_eq_zero (by omega)
    rw [hnil, placeholdersCore_nil] at hmem
    exact absurd hmem (by simp)
  | succ n ih =>
    intro s hs name hmem hnone
    cases hmp : matchPlaceholder s with
    | some pair =>
      obtain ⟨nm, after⟩ := pair
      rw [placeholdersCore_ph hmp] at hmem
      cases hval : getVal vars (String.mk nm) with
      | none =>
        refine ⟨String.mk nm, hval, ?_⟩
        rw [evalTemplateCore_ph vars hmp, hval]
      | some v =>
        have hmem' : name ∈ placeholdersCore after := by
          rcases List.mem_cons.mp hmem with rfl | hx
          · rw [hval] at hnone
            exact absurd hnone (by simp)
          · exact hx
        have hlen : after.length ≤ n := by
          have := matchPlaceholder_length_lt hmp
          omega
        obtain ⟨m, hm, hcore⟩ := ih after hlen name hmem' hnone
        refine ⟨m, hm, ?_⟩
        rw [evalTemplateCore_ph vars hmp, hval, hcore]
    | none =>
      cases s with
      | nil =>
        rw [placeholdersCore_nil] at hmem
        exact absurd hmem (by simp)
      | cons c rest =>
        rw [placeholdersCore_cons hmp] at hmem
        have hlen : rest.length ≤ n := by
          simp only [List.length_cons] at hs
          omega
        obtain ⟨m, hm, hcore⟩ := ih rest hlen name hmem hnone
        refine ⟨m, hm, ?_⟩
        rw [evalTemplateCore_cons vars hmp, hcore]

/-- Claim C6.  Missing-variable failure: when the template contains a
placeholder whose identifier is absent from the variable set (or bound to a
null value), evalTemplate fails with the undefined-template-variable error
carrying a missing identifier, and produces no output string. -/
theorem missing_variable_failure (template : String)
    (vars : List (String × Option String)) (name : String)
    (h1 : name ∈ placeholders template) (h2 : getVal vars name = none) :
    ∃ m, getVal vars m = none ∧
      evalTemplate template vars = Except.error (errUndefVar m) := by
  obtain ⟨m, hm, hcore⟩ :=
    missing_var_core vars template.data.length template.data (le_refl _) name h1 h2
  refine ⟨m, hm, ?_⟩
  unfold evalTemplate
  rw [hcore]

theorem missing_variable_failure_witness :
    ("missing") ∈ placeholders ("a\x7b\x7bmissing\x7d\x7db") ∧
      getVal [(("x"), some ("1"))] ("missing") = none ∧
      (∃ m, getVal [(("x"), some ("1"))] m = none ∧
        evalTemplate ("a\x7b\x7bmissing\x7d\x7db") [(("x"), some ("1"))] =
          Except.error (errUndefVar m)) :=
  ⟨by simp [placeholders, placeholdersCore, matchPlaceholder, isWordChar],
    by decide,
    missing_variable_failure _ _ ("missing")
      (by simp [placeholders, placeholdersCore, matchPlaceholder, isWordChar])
      (by decide)⟩

theorem takeWhile_word_append {n : List Char} (hn : ∀ c ∈ n, isWordChar c = true)
    {x : Char} (hx : isWordChar x = false) (t : List Char) :
    (n ++ x :: t).takeWhile isWordChar = n := by
  induction n with
  | nil => simp [List.takeWhile_cons_of_neg, hx]
  | cons a n2 ih =>
    have ha := hn a (List.mem_cons_self a n2)
    simp only [List.cons_append, List.takeWhile_cons_of_pos ha]
    rw [ih (fun c hc => hn c (List.mem_cons_of_mem a hc))]

/-- The placeholder regex matches at the start of a well-formed placeholder:
two opening braces, a nonempty word-character identifier, two closing braces,
and the identifier is returned together with the text after the match. -/
theorem matchPlaceholder_at_ph {n : List Char} (hne : n ≠ [])
    (hw : ∀ c ∈ n, isWordChar c = true) (rest : List Char) :
    matchPlaceholder (Char.ofNat 123 :: Char.ofNat 123 ::
        (n ++ Char.ofNat 125 :: Char.ofNat 125 :: rest)) = some (n, rest) := by
  have hbrace : isWordChar (Char.ofNat 125) = false := by decide
  have hname : (n ++ Char.ofNat 125 :: Char.ofNat 125 :: rest).takeWhile isWordChar = n :=
    takeWhile_word_append hw hbrace _
  have hsplit : n ++ Char.ofNat 125 :: Char.ofNat 125 :: rest =
      (n ++ [Char.ofNat 125, Char.ofNat 125]) ++ rest := by simp
  simp only [matchPlaceholder, List.take_succ_cons, List.take_zero,
    List.drop_succ_cons, List.drop_zero]
  rw [hname]
  have hd2 : List.drop (2 + n.length)
      (Char.ofNat 123 :: Char.ofNat 123 :: (n ++ Char.ofNat 125 :: Char.ofNat 125 :: rest)) =
      Char.ofNat 125 :: Char.ofNat 125 :: rest := by
    have h1 : 2 + n.length = n.length + 1 + 1 := by omega
    rw [h1, List.drop_succ_cons, List.drop_succ_cons, List.drop_left]
  have hd4 : List.drop (4 + n.length)
      (Char.ofNat 123 :: Char.ofNat 123 :: (n ++ Char.ofNat 125 :: Char.ofNat 125 :: rest)) =
      rest := by
    have h1 : 4 + n.length = n.length + 2 + 1 + 1 := by omega
    rw [h1, List.drop_succ_cons, List.drop_succ_cons, hsplit]
    exact List.drop_left' (by simp)
  rw [hd2, hd4]
  simp [hne]

theorem matchPlaceholder_cons_none {c : Char} (hc : c ≠ Char.ofNat 123)
    (l : List Char) : matchPlaceholder (c :: l) = none := by
  have h1 : (c :: l).take 2 ≠ [Char.ofNat 123, Char.ofNat 123] := by
    cases l with
    | nil => simp
    | cons d t => simp [hc]
  unfold matchPlaceholder
  rw [if_neg h1]

/-- Text free of opening braces passes through the template scan unchanged,
prefixed onto whatever the scan of the remainder produces. -/
theorem evalCore_append_safe (vars : List (String × Option String))
    (a rest : List Char) (ha : ∀ ch ∈ a, ch ≠ Char.ofNat 123) :
    evalTemplateCore vars (a ++ rest) =
      match evalTemplateCore vars rest with
      | Except.error e => Except.error e
      | Except.ok tail => Except.ok (a ++ tail) := by
  induction a with
  | nil =>
    simp only [List.nil_append]
    cases evalTemplateCore vars rest <;> simp
  | cons c a2 ih =>
    have hc := ha c (List.mem_cons_self c a2)
    rw [List.cons_append, evalTemplateCore_cons vars (matchPlaceholder_cons_none hc _)]
    rw [ih (fun ch hch => ha ch (List.mem_cons_of_mem c hch))]
    cases evalTemplateCore vars rest <;> simp

theorem evalCore_safe (vars : List (String × Option String))
    (a : List Char) (ha : ∀ ch ∈ a, ch ≠ Char.ofNat 123) :
    evalTemplateCore vars a = Except.ok a := by
  have h := evalCore_append_safe vars a [] ha
  rw [evalTemplateCore_nil] at h
  simpa using h

/-- Claim C7.  Template substitution correctness: a template made of three
brace-free segments around two well-formed placeholders, each bound to a
value, evaluates to the segments with each placeholder occurrence replaced
independently by its identifier's value (the two identifiers may coincide,
in which case the same value is substituted at both occurrences). -/
theorem template_substitution (vars : List (String × Option String))
    (a b c n1 n2 v1 v2 : String)
    (ha : ∀ ch ∈ a.data, ch ≠ Char.ofNat 123)
    (hb : ∀ ch ∈ b.data, ch ≠ Char.ofNat 123)
    (hc : ∀ ch ∈ c.data, ch ≠ Char.ofNat 123)
    (hn1 : n1.data ≠ []) (hw1 : ∀ ch ∈ n1.data, isWordChar ch = true)
    (hn2 : n2.data ≠ []) (hw2 : ∀ ch ∈ n2.data, isWordChar ch = true)
    (hv1 : getVal vars n1 = some v1) (hv2 : getVal vars n2 = some v2) :
    evalTemplate (a ++ ("\x7b\x7b") ++ n1 ++ ("\x7d\x7d") ++ b ++
        ("\x7b\x7b") ++ n2 ++ ("\x7d\x7d") ++ c) vars =
      Except.ok (a ++ v1 ++ b ++ v2 ++ c) := by
  have hdata : (a ++ ("\x7b\x7b") ++ n1 ++ ("\x7d\x7d") ++ b ++
      ("\x7b\x7b") ++ n2 ++ ("\x7d\x7d") ++ c).data =
      a.data ++ (Char.ofNat 123 :: Char.ofNat 123 ::
        (n1.data ++ Char.ofNat 125 :: Char.ofNat 125 ::
          (b.data ++ (Char.ofNat 123 :: Char.ofNat 123 ::
            (n2.data ++ Char.ofNat 125 :: Char.ofNat 125 :: c.data))))) := by
    simp [String.data_append]
  have hcore2 : evalTemplateCore vars
      (Char.ofNat 123 :: Char.ofNat 123 ::
        (n2.data ++ Char.ofNat 125 :: Char.ofNat 125 :: c.data)) =
      Except.ok (v2.data ++ c.data) := by
    rw [evalTemplateCore_ph vars (matchPlaceholder_at_ph hn2 hw2 c.data)]
    have hmk : String.mk n2.data = n2 := rfl
    rw [hmk, hv2, evalCore_safe vars c.data hc]
  have hcoreb : evalTemplateCore vars
      (b.data ++ (Char.ofNat 123 :: Char.ofNat 123 ::
        (n2.data ++ Char.ofNat 125 :: Char.ofNat 125 :: c.data))) =
      Except.ok (b.data ++ (v2.data ++ c.data)) := by
    rw [evalCore_append_safe vars b.data _ hb, hcore2]
  have hcore1 : evalTemplateCore vars
      (Char.ofNat 123 :: Char.ofNat 123 ::
        (n1.data ++ Char.ofNat 125 :: Char.ofNat 125 ::
          (b.data ++ (Char.ofNat 123 :: Char.ofNat 123 ::
            (n2.data ++ Char.ofNat 125 :: Char.ofNat 125 :: c.data))))) =
      Except.ok (v1.data ++ (b.data ++ (v2.data ++ c.data))) := by
    rw [evalTemplateCore_ph vars (matchPlaceholder_at_ph hn1 hw1 _)]
    have hmk : String.mk n1.data = n1 := rfl
    rw [hmk, hv1, hcoreb]
  have hcorea : evalTemplateCore vars
      (a.data ++ (Char.ofNat 123 :: Char.ofNat 123 ::
        (n1.data ++ Char.ofNat 125 :: Char.ofNat 125 ::
          (b.data ++ (Char.ofNat 123 :: Char.ofNat 123 ::
            (n2.data ++ Char.ofNat 125 :: Char.ofNat 125 :: c.data)))))) =
      Except.ok (a.data ++ (v1.data ++ (b.data ++ (v2.data ++ c.data)))) := by
    rw [evalCore_append_safe vars a.data _ ha, hcore1]
  unfold evalTemplate
  rw [hdata, hcorea]
  show Except.ok (String.mk (a.data ++ (v1.data ++ (b.data ++ (v2.data ++ c.data))))) =
    Except.ok (a ++ v1 ++ b ++ v2 ++ c)
  exact congrArg Except.ok (String.ext (by simp [String.data_append]))

theorem template_substitution_witness :
    evalTemplate (("<p>") ++ ("\x7b\x7b") ++ ("title_html") ++ ("\x7d\x7d") ++
        ("</p><script>") ++ ("\x7b\x7b") ++ ("code") ++ ("\x7d\x7d") ++
        ("</script>"))
      [(("title_html"), some ("A &amp; B")), (("code"), some ("1+1"))] =
      Except.ok (("<p>") ++ ("A &amp; B") ++ ("</p><script>") ++ ("1+1") ++
        ("</script>")) :=
  template_substitution
    [(("title_html"), some ("A &amp; B")), (("code"), some ("1+1"))]
    ("<p>") ("</p><script>") ("</script>") ("title_html") ("code")
    ("A &amp; B") ("1+1")
    (by decide) (by decide) (by decide) (by decide) (by decide)
    (by decide) (by decide) (by decide) (by decide)

/-! Helper evaluations for the budget bar. -/

theorem bwidthNat_seven : bwidthNat (7 / 64) 8 = 7 := by
  unfold bwidthNat jsRound
  norm_num
  decide

/-- Claim C8 fails on the code when the filled sub-unit count is 7 modulo 8:
barBlocks has only the indices 0 to 6, so barBlocks[7] is undefined and the
bar row receives the nine-character text undefined instead of a partial-fill
glyph.  With a 10-column stream the interior is 8 cells wide; at fraction
7/64 exactly 7 sub-units fill, so fullBlocks is 0 and fracBlock is 7. -/
theorem makeBar_undefined_text :
    makeBar (7 / 64) (some 10) = "┌────────┐\n│undefined       │\n└────────┘\n" ∧
      barBlocks.length = 7 ∧ barBlocks.get? 7 = none := by
  refine ⟨?_, by decide, by decide⟩
  have hc : columnsOf (some 10) = 8 := rfl
  simp only [makeBar, hc, bwidthNat_seven]
  decide

/-- Claim C9.  Budget bar monotonicity and endpoints: for a fixed interior
cell count W, the filled sub-unit count computed by makeBar is non-decreasing
in the fraction over the unit interval, is 0 at fraction 0, and is W * 8 at
fraction 1. -/
theorem bar_monotone_endpoints (W : Nat) (f g : ℚ)
    (h0 : 0 ≤ f) (hfg : f ≤ g) (h1 : g ≤ 1) :
    bwidthNat f W ≤ bwidthNat g W ∧ bwidthNat 0 W = 0 ∧ bwidthNat 1 W = W * 8 := by
  refine ⟨?_, ?_, ?_⟩
  · unfold bwidthNat jsRound
    have hm : f * (W : ℚ) * 8 ≤ g * (W : ℚ) * 8 := by
      have hW : (0 : ℚ) ≤ (W : ℚ) := by positivity
      nlinarith
    have hr : ⌊f * (W : ℚ) * 8 + 1 / 2⌋ ≤ ⌊g * (W : ℚ) * 8 + 1 / 2⌋ :=
      Int.floor_le_floor (by linarith)
    have hmax : max 0 ⌊f * (W : ℚ) * 8 + 1 / 2⌋ ≤ max 0 ⌊g * (W : ℚ) * 8 + 1 / 2⌋ :=
      max_le_max (le_refl 0) hr
    exact Int.toNat_le_toNat (min_le_min (le_refl _) hmax)
  · unfold bwidthNat jsRound
    have hz : ⌊(0 : ℚ) * (W : ℚ) * 8 + 1 / 2⌋ = 0 := by norm_num
    rw [hz]
    have hmax : max (0 : ℤ) 0 = 0 := by norm_num
    rw [hmax]
    have hmin : min ((W : ℤ) * 8) 0 = 0 := min_eq_right (by positivity)
    rw [hmin]
    rfl
  · unfold bwidthNat jsRound
    have hcast : (1 : ℚ) * (W : ℚ) * 8 = (((W : ℤ) * 8 : ℤ) : ℚ) := by
      push_cast
      ring
    rw [hcast]
    have hfl : ⌊(((W : ℤ) * 8 : ℤ) : ℚ) + 1 / 2⌋ = (W : ℤ) * 8 := by
      rw [Int.floor_int_add]
      norm_num
    rw [hfl]
    have hmax : max (0 : ℤ) ((W : ℤ) * 8) = (W : ℤ) * 8 := max_eq_right (by positivity)
    rw [hmax, min_self]
    omega

theorem bar_monotone_endpoints_witness :
    ((0 : ℚ) ≤ 1 / 3 ∧ (1 / 3 : ℚ) ≤ 1 / 2 ∧ (1 / 2 : ℚ) ≤ 1) ∧
      (bwidthNat (1 / 3) 5 ≤ bwidthNat (1 / 2) 5 ∧
        bwidthNat 0 5 = 0 ∧ bwidthNat 1 5 = 5 * 8) :=
  ⟨⟨by norm_num, by norm_num, by norm_num⟩,
    bar_monotone_endpoints 5 (1 / 3) (1 / 2) (by norm_num) (by norm_num) (by norm_num)⟩

end DemoTraveler
